import Mathlib

/-
Verification of the stdout2prom line-classification and metric-update
engine (the fully featured variant: named value group, named label
groups, four collector shapes, pass-through policy).

The embedding translates the Go source function by function:
  * indexOf, getValue, getLabels are the three helper functions;
  * processMetric is the body of the inner `for _, metric` loop for one
    metric and one line;
  * stepMetrics folds processMetric over the metric list for one line,
    aborting on a runtime panic exactly where Go would die;
  * processLine is the body of the scanner loop for one line, including
    the self-observability counter updates and the pass-through policy;
  * runLines / runScanner drive processLine over a list of delivered
    lines, resp. over a raw input split the way bufio.ScanLines does.

Machine floats are only ever produced by strconv.ParseFloat, stored into
a gauge, or incremented by 1 from 0 on a counter; no claim depends on
float arithmetic, so parsed values live in an abstract value type Val
(taken to be Int) and ParseFloat is an explicit parameter
pf : String -> Option Val (none = parse error). Compiled regular
expressions are likewise abstracted: a metric carries its
FindStringSubmatch as a function field (result [] encodes the Go nil,
meaning no match) together with its SubexpNames list, mirroring the
Compiled and GroupName fields of the source struct. The vector
collectors follow the prometheus client contract for With: handed the
label map of a successful getLabels it selects that series; handed the
nil map a failed getLabels returns (the source is missing a continue
there) it panics on the label-cardinality mismatch, leaving the
collector untouched and killing the process.
-/

namespace Stdout2Prom

/-- Stand-in for Go float64 values: the engine only stores parsed values
and increments counters by one, so an abstract numeric carrier suffices. -/
abbrev Val := Int

/-- prometheus.Labels as built by getLabels: pairs in label-name order. -/
abbrev GoLabels := List (String × String)

/-- Distinguishes a Go error value returned to the caller from a runtime
panic (index out of range), which kills the process. -/
inductive GoError
  | parseError
  | lookupError
  | panic
deriving DecidableEq, Repr

/-- indexOf from the source: linear scan over data, first index whose
entry equals word, or -1 when absent. -/
def indexOf (word : String) (data : List String) : Int :=
  match data with
  | [] => -1
  | v :: rest =>
    if word = v then 0
    else
      let r := indexOf word rest
      if r = -1 then -1 else r + 1

/-- getValue from the source: look the value name up in the group names
and parse the corresponding submatch. The source indexes results[idx]
without checking idx, so idx = -1 (name absent) is a runtime panic, not
a returned error. -/
def getValue (pf : String → Option Val) (valueName : String)
    (groupNames results : List String) : Except GoError Val :=
  let idx := indexOf valueName groupNames
  if h : 0 ≤ idx ∧ idx.toNat < results.length then
    match pf (results.get ⟨idx.toNat, h.2⟩) with
    | some v => Except.ok v
    | none => Except.error GoError.parseError
  else
    Except.error GoError.panic

/-- getLabels from the source: for each label name, look it up in the
group names; -1 is checked here (unlike getValue) and returned as an
error; an in-bounds index reads the submatch into the label map. -/
def getLabels (labelNames groupNames results : List String) :
    Except GoError GoLabels :=
  match labelNames with
  | [] => Except.ok []
  | n :: rest =>
    let idx := indexOf n groupNames
    if idx = -1 then Except.error GoError.lookupError
    else if h : idx.toNat < results.length then
      match getLabels rest groupNames results with
      | Except.ok l => Except.ok ((n, results.get ⟨idx.toNat, h⟩) :: l)
      | Except.error e => Except.error e
    else Except.error GoError.panic

/-- One metric specification: the yaml fields plus the two fields filled
at startup (Compiled, modelled by its FindStringSubmatch behaviour, and
GroupName = Compiled.SubexpNames()). A find result of [] encodes the Go
nil slice, i.e. no match. -/
structure Metric where
  name : String
  description : String
  value : String
  labels : List String
  find : String → List String
  groupName : List String

/-- The four collector shapes with their state: a Counter holds a count,
a Gauge the last set value, the Vec forms one series per label set. -/
inductive Collector
  | counter (n : Nat)
  | counterVec (series : List (GoLabels × Nat))
  | gauge (v : Val)
  | gaugeVec (series : List (GoLabels × Val))
deriving DecidableEq, Repr

inductive Shape
  | counter
  | counterVec
  | gauge
  | gaugeVec
deriving DecidableEq, Repr

def shapeOf : Collector → Shape
  | Collector.counter _ => Shape.counter
  | Collector.counterVec _ => Shape.counterVec
  | Collector.gauge _ => Shape.gauge
  | Collector.gaugeVec _ => Shape.gaugeVec

/-- CounterVec.With(lab).Inc(): increment the series keyed lab, creating
it at 1 when absent. -/
def incSeries (lab : GoLabels) : List (GoLabels × Nat) → List (GoLabels × Nat)
  | [] => [(lab, 1)]
  | (l, n) :: rest =>
    if l = lab then (l, n + 1) :: rest else (l, n) :: incSeries lab rest

/-- GaugeVec.With(lab).Set(v): overwrite the series keyed lab, creating
it when absent. -/
def setSeries (lab : GoLabels) (v : Val) : List (GoLabels × Val) → List (GoLabels × Val)
  | [] => [(lab, v)]
  | (l, w) :: rest =>
    if l = lab then (l, v) :: rest else (l, w) :: setSeries lab v rest

/-- Collector construction at startup (the if/else ladder of the config
loop): value group present chooses gauge shapes, a non-empty label list
chooses the Vec form. -/
def newCollector (m : Metric) : Collector :=
  if m.value ≠ "" then
    if m.labels.length > 0 then Collector.gaugeVec [] else Collector.gauge 0
  else
    if m.labels.length > 0 then Collector.counterVec [] else Collector.counter 0

/-- The dispatch at the bottom of the match branch: the same two booleans
select the collector operation; the Go type assertion panics (none) when
the collector shape disagrees with the booleans. -/
def applyUpdate (m : Metric) (v : Val) (lab : GoLabels) (c : Collector) :
    Option Collector :=
  if m.value = "" then
    if m.labels.length > 0 then
      match c with
      | Collector.counterVec s => some (Collector.counterVec (incSeries lab s))
      | _ => none
    else
      match c with
      | Collector.counter n => some (Collector.counter (n + 1))
      | _ => none
  else
    if m.labels.length > 0 then
      match c with
      | Collector.gaugeVec s => some (Collector.gaugeVec (setSeries lab v s))
      | _ => none
    else
      match c with
      | Collector.gauge _ => some (Collector.gauge v)
      | _ => none

/-- Observable effect of processing one metric against one line:
matchedInc and badFloatInc are the increments applied to the two global
counters, matched is the contribution to matchFound, diag records the
"problems finding labels" log line, panicked a runtime panic. -/
structure MetricOutcome where
  collector : Collector
  matchedInc : Nat
  badFloatInc : Nat
  matched : Bool
  diag : Bool
  panicked : Bool
deriving DecidableEq, Repr

/-- Outcome when a runtime panic fires after the match bookkeeping:
matchedLines was already incremented, the collector is untouched. -/
def panicOutcome (c : Collector) : MetricOutcome :=
  { collector := c, matchedInc := 1, badFloatInc := 0, matched := true,
    diag := false, panicked := true }

/-- End of the matched branch: apply the dispatch; a failed type
assertion is a panic. -/
def finishUpdate (m : Metric) (c : Collector) (v : Val) (lab : GoLabels)
    (diag : Bool) : MetricOutcome :=
  match applyUpdate m v lab c with
  | some c2 =>
    { collector := c2, matchedInc := 1, badFloatInc := 0, matched := true,
      diag := diag, panicked := false }
  | none =>
    { collector := c, matchedInc := 1, badFloatInc := 0, matched := true,
      diag := diag, panicked := true }

/-- The label step of the matched branch. On a getLabels error the
source logs "problems finding labels" but does not continue: the update
below still runs, with the nil map the failed getLabels returned — and
the prometheus client's With panics on the label-cardinality mismatch
(the nil map covers none of the one-or-more declared labels), so the
collector is left untouched and the process dies. -/
def processLabeled (m : Metric) (result : List String) (c : Collector)
    (v : Val) : MetricOutcome :=
  if m.labels.length > 0 then
    match getLabels m.labels m.groupName result with
    | Except.ok lab => finishUpdate m c v lab false
    | Except.error GoError.panic => panicOutcome c
    | Except.error _ =>
      { collector := c, matchedInc := 1, badFloatInc := 0, matched := true,
        diag := true, panicked := true }
  else
    finishUpdate m c v [] false

/-- The matched branch: matchedLines.Inc() and matchFound have already
happened when this runs. A value parse error increments badFloats and
continues to the next metric; the value 0 stands for the unread global
when no value group is declared. -/
def processMatched (pf : String → Option Val) (m : Metric)
    (result : List String) (c : Collector) : MetricOutcome :=
  if m.value ≠ "" then
    match getValue pf m.value m.groupName result with
    | Except.ok v => processLabeled m result c v
    | Except.error GoError.panic => panicOutcome c
    | Except.error _ =>
      { collector := c, matchedInc := 1, badFloatInc := 1, matched := true,
        diag := false, panicked := false }
  else
    processLabeled m result c 0

/-- One iteration of the inner metric loop for one line. -/
def processMetric (pf : String → Option Val) (m : Metric) (line : String)
    (c : Collector) : MetricOutcome :=
  if (m.find line).length = 0 then
    { collector := c, matchedInc := 0, badFloatInc := 0, matched := false,
      diag := false, panicked := false }
  else
    processMatched pf m (m.find line) c

/-- The four process-wide self-observability counters. -/
structure Counters where
  totalLines : Nat
  bytesRead : Nat
  matchedLines : Nat
  badFloats : Nat
deriving DecidableEq, Repr

def initialCounters : Counters :=
  { totalLines := 0, bytesRead := 0, matchedLines := 0, badFloats := 0 }

/-- State threaded through the scanner loop: one collector per metric
(kept paired with its metric, as in the source struct) plus the global
counters. -/
structure ProcState where
  specs : List (Metric × Collector)
  counters : Counters

/-- Aggregate effect of the whole inner metric loop on one line. A panic
stops the loop where Go would die: later metrics are left untouched. -/
structure MetricsPass where
  specs : List (Metric × Collector)
  matchedInc : Nat
  badFloatInc : Nat
  matchFound : Bool
  diagCount : Nat
  panicked : Bool

/-- The inner metric loop for one line. -/
def stepMetrics (pf : String → Option Val) (line : String) :
    List (Metric × Collector) → MetricsPass
  | [] =>
    { specs := [], matchedInc := 0, badFloatInc := 0, matchFound := false,
      diagCount := 0, panicked := false }
  | (m, c) :: rest =>
    let o := processMetric pf m line c
    if o.panicked then
      { specs := (m, o.collector) :: rest, matchedInc := o.matchedInc,
        badFloatInc := o.badFloatInc, matchFound := o.matched,
        diagCount := (if o.diag then 1 else 0), panicked := true }
    else
      let r := stepMetrics pf line rest
      { specs := (m, o.collector) :: r.specs,
        matchedInc := o.matchedInc + r.matchedInc,
        badFloatInc := o.badFloatInc + r.badFloatInc,
        matchFound := (o.matched || r.matchFound),
        diagCount := (if o.diag then 1 else 0) + r.diagCount,
        panicked := r.panicked }

/-- The two global pass-through policy flags from the config. -/
structure Config where
  eatMatches : Bool
  eatAll : Bool
deriving DecidableEq, Repr

/-- Result of one scanner-loop iteration: the new state, the line echoed
to stdout when forwarded, and whether the process panicked. -/
structure LineOut where
  state : ProcState
  output : Option String
  panicked : Bool

/-- One iteration of the scanner loop: totalLines and bytesRead first
(Go len is the utf8 byte length of the delivered text), then the metric
loop, then the pass-through decision. -/
def processLine (pf : String → Option Val) (cfg : Config) (line : String)
    (st : ProcState) : LineOut :=
  let c1 : Counters :=
    { st.counters with
      totalLines := st.counters.totalLines + 1
      bytesRead := st.counters.bytesRead + line.utf8ByteSize }
  let p := stepMetrics pf line st.specs
  let c2 : Counters :=
    { c1 with
      matchedLines := c1.matchedLines + p.matchedInc
      badFloats := c1.badFloats + p.badFloatInc }
  let st2 : ProcState := { specs := p.specs, counters := c2 }
  if p.panicked = true then { state := st2, output := none, panicked := true }
  else if cfg.eatAll = true then
    { state := st2, output := none, panicked := false }
  else if (p.matchFound && cfg.eatMatches) = true then
    { state := st2, output := none, panicked := false }
  else { state := st2, output := some line, panicked := false }

/-- The pure pass-through decision function the specification describes,
stated on the triple alone; the refinement theorem for C5 relates it to
processLine. -/
def forwardsDecision (eatAll eatMatches matched : Bool) : Bool :=
  if eatAll = true then false
  else if (matched && eatMatches) = true then false
  else true

/-- Whether any metric of the list matches the line (first-match search,
OR across metrics). -/
def lineMatches (ms : List Metric) (line : String) : Bool :=
  ms.any fun m => !(m.find line).isEmpty

/-- Result of driving the scanner loop over a list of delivered lines. -/
structure RunResult where
  state : ProcState
  outputs : List String
  panicked : Bool

/-- Drive processLine over the delivered lines; a panic aborts the rest
of the stream. -/
def runLines (pf : String → Option Val) (cfg : Config) :
    List String → ProcState → RunResult
  | [], st => { state := st, outputs := [], panicked := false }
  | l :: rest, st =>
    let r := processLine pf cfg l st
    if r.panicked then { state := r.state, outputs := [], panicked := true }
    else
      let rr := runLines pf cfg rest r.state
      { state := rr.state,
        outputs :=
          (match r.output with
           | some o => o :: rr.outputs
           | none => rr.outputs),
        panicked := rr.panicked }

/-- Split a character list at every newline character; the segments
between newlines, in order, including a final (possibly empty) segment
after the last newline. -/
def splitNL : List Char → List (List Char)
  | [] => [[]]
  | c :: rest =>
    if c = '\n' then [] :: splitNL rest
    else
      match splitNL rest with
      | [] => [[c]]
      | p :: ps => (c :: p) :: ps

/-- Modelled from the Go standard library bufio.ScanLines, the
line-delivery collaborator at the input boundary: strip one trailing
carriage return from a token. -/
def dropCRChars (s : List Char) : List Char :=
  match s.reverse with
  | c :: rest => if c = '\r' then rest.reverse else s
  | [] => s

/-- Modelled from bufio.ScanLines: tokens are the segments between
newline bytes, each with a trailing carriage return stripped; leftover
data at end of input forms a final token only when non-empty. -/
def scanTokens (s : String) : List String :=
  let parts := splitNL s.data
  let parts := if parts.getLast? = some [] then parts.dropLast else parts
  parts.map fun cs => String.mk (dropCRChars cs)

/-- Whole-stream run on a raw input string. -/
def runScanner (pf : String → Option Val) (cfg : Config) (raw : String)
    (st : ProcState) : RunResult :=
  runLines pf cfg (scanTokens raw) st

/-- Fixed names of the four self-observability counters, as declared in
the source. -/
def totalLinesName : String := "stdout2prom_lines_parsed_total"

def bytesReadName : String := "stdout2prom_bytes_read_total"

def matchedLinesName : String := "stdout2prom_matched_lines_total"

def badFloatsName : String := "stdout2prom_bad_floats_total"

/-- A registry entry: a user metric collector (registered in the config
loop, under basename_name) or one of the self-observability counters. -/
inductive RegEntry
  | user (name : String)
  | selfMetric (name : String)
deriving DecidableEq, Repr

/-- The registration sequence of main: each user collector inside the
config loop, then totalLines, bytesRead and matchedLines. The source
never registers badFloats. -/
def startupRegistry (basename : String) (metrics : List Metric) :
    List RegEntry :=
  (metrics.map fun m => RegEntry.user (basename ++ "_" ++ m.name))
    ++ [RegEntry.selfMetric totalLinesName, RegEntry.selfMetric bytesReadName,
        RegEntry.selfMetric matchedLinesName]

/-- Startup collector construction: one collector per metric. -/
def startupSpecs (metrics : List Metric) : List (Metric × Collector) :=
  metrics.map fun m => (m, newCollector m)

def initialState (metrics : List Metric) : ProcState :=
  { specs := startupSpecs metrics, counters := initialCounters }

/-
Concrete instances used by counterexamples and witnesses. pfDemo stands
for strconv.ParseFloat restricted to the inputs the demos feed it:
defined on the two numerals they contain, undefined elsewhere.
-/

def pfDemo : String → Option Val := fun s =>
  if s = "15" then some 15 else if s = "200" then some 200 else none

def cfgDemo : Config := { eatMatches := false, eatAll := false }

/-- Plain counter metric whose pattern matches exactly the line "ab". -/
def metricAbA : Metric :=
  { name := "a", description := "", value := "", labels := [],
    find := fun l => if l = "ab" then ["ab"] else [],
    groupName := [""] }

/-- Second counter metric with the same pattern, for multi-match lines. -/
def metricAbB : Metric :=
  { name := "b", description := "", value := "", labels := [],
    find := fun l => if l = "ab" then ["ab"] else [],
    groupName := [""] }

/-- Counter metric whose pattern (the empty regex) matches every line. -/
def metricAny : Metric :=
  { name := "any", description := "", value := "", labels := [],
    find := fun _ => [""],
    groupName := [""] }

/-- Misconfigured metric: declares value group "resp" but its pattern
only has the named group "code". Its pattern matches the line "y". -/
def metricValueGroupMissing : Metric :=
  { name := "v", description := "", value := "resp", labels := [],
    find := fun l => if l = "y" then ["y", "200"] else [],
    groupName := ["", "code"] }

/-- Misconfigured metric: declares label group "who" but its pattern
only has the named group "other". Its pattern matches the line "x". -/
def metricLabelGroupMissing : Metric :=
  { name := "c", description := "", value := "", labels := ["who"],
    find := fun l => if l = "x" then ["x", "yy"] else [],
    groupName := ["", "other"] }

/-- CounterVec metric: no value group, one label group "code" that is
present among the pattern group names; its pattern matches the line
"y". -/
def metricCodeCount : Metric :=
  { name := "codes", description := "", value := "", labels := ["code"],
    find := fun l => if l = "y" then ["y", "200"] else [],
    groupName := ["", "code"] }

/-- Gauge metric shaped like Scenario B of the specification: value
group "response", label group "returncode". -/
def metricPost : Metric :=
  { name := "post", description := "", value := "response",
    labels := ["returncode"],
    find := fun l =>
      if l = "POST /x 200 15ms" then ["POST /x 200 15ms", "200", "15"]
      else if l = "POST /x 200 abcms" then ["POST /x 200 abcms", "200", "abc"]
      else [],
    groupName := ["", "returncode", "response"] }

/-
Helper lemmas about the matched branch.
-/

lemma finishUpdate_matched (m : Metric) (c : Collector) (v : Val)
    (lab : GoLabels) (d : Bool) : (finishUpdate m c v lab d).matched = true := by
  unfold finishUpdate
  split <;> rfl

lemma processLabeled_matched (m : Metric) (result : List String)
    (c : Collector) (v : Val) : (processLabeled m result c v).matched = true := by
  unfold processLabeled
  split
  · split
    · exact finishUpdate_matched ..
    · rfl
    · rfl
  · exact finishUpdate_matched ..

lemma processMatched_matched (pf : String → Option Val) (m : Metric)
    (result : List String) (c : Collector) :
    (processMatched pf m result c).matched = true := by
  unfold processMatched
  split
  · split
    · exact processLabeled_matched ..
    · rfl
    · rfl
  · exact processLabeled_matched ..

/-- The matched flag of one metric step is exactly whether the pattern
matched, independent of everything later in the branch. -/
lemma processMetric_matched (pf : String → Option Val) (m : Metric)
    (line : String) (c : Collector) :
    (processMetric pf m line c).matched = !(m.find line).isEmpty := by
  unfold processMetric
  split
  · next h =>
    have hnil : m.find line = [] := List.length_eq_zero.mp h
    simp [hnil]
  · next h =>
    rw [processMatched_matched]
    cases hfind : m.find line with
    | nil => exact absurd (by rw [hfind]; rfl) h
    | cons a t => rfl

lemma shapeOf_applyUpdate (m : Metric) (v : Val) (lab : GoLabels)
    (c c2 : Collector) (h : applyUpdate m v lab c = some c2) :
    shapeOf c2 = shapeOf c := by
  unfold applyUpdate at h
  split at h <;> split at h <;> split at h <;>
    first
      | exact Option.noConfusion h
      | (injection h with h2; subst h2; rfl)

lemma shapeOf_finishUpdate (m : Metric) (c : Collector) (v : Val)
    (lab : GoLabels) (d : Bool) :
    shapeOf (finishUpdate m c v lab d).collector = shapeOf c := by
  unfold finishUpdate
  split
  · next c2 h => exact shapeOf_applyUpdate m v lab c c2 h
  · rfl

lemma shapeOf_processLabeled (m : Metric) (result : List String)
    (c : Collector) (v : Val) :
    shapeOf (processLabeled m result c v).collector = shapeOf c := by
  unfold processLabeled
  split
  · split
    · exact shapeOf_finishUpdate ..
    · rfl
    · rfl
  · exact shapeOf_finishUpdate ..

lemma shapeOf_processMatched (pf : String → Option Val) (m : Metric)
    (result : List String) (c : Collector) :
    shapeOf (processMatched pf m result c).collector = shapeOf c := by
  unfold processMatched
  split
  · split
    · exact shapeOf_processLabeled ..
    · rfl
    · rfl
  · exact shapeOf_processLabeled ..

/-- Processing a metric never changes the shape of its collector. -/
lemma shapeOf_processMetric (pf : String → Option Val) (m : Metric)
    (line : String) (c : Collector) :
    shapeOf (processMetric pf m line c).collector = shapeOf c := by
  unfold processMetric
  split
  · rfl
  · exact shapeOf_processMatched ..

/-
Equation lemmas for the metric loop and arithmetic facts about the
helper functions.
-/

lemma stepMetrics_cons_panic (pf : String → Option Val) (line : String)
    (m : Metric) (c : Collector) (rest : List (Metric × Collector))
    (h : (processMetric pf m line c).panicked = true) :
    stepMetrics pf line ((m, c) :: rest) =
      { specs := (m, (processMetric pf m line c).collector) :: rest,
        matchedInc := (processMetric pf m line c).matchedInc,
        badFloatInc := (processMetric pf m line c).badFloatInc,
        matchFound := (processMetric pf m line c).matched,
        diagCount := (if (processMetric pf m line c).diag then 1 else 0),
        panicked := true } := by
  simp only [stepMetrics, h, if_true]

lemma stepMetrics_cons_ok (pf : String → Option Val) (line : String)
    (m : Metric) (c : Collector) (rest : List (Metric × Collector))
    (h : (processMetric pf m line c).panicked = false) :
    stepMetrics pf line ((m, c) :: rest) =
      { specs := (m, (processMetric pf m line c).collector) ::
          (stepMetrics pf line rest).specs,
        matchedInc := (processMetric pf m line c).matchedInc +
          (stepMetrics pf line rest).matchedInc,
        badFloatInc := (processMetric pf m line c).badFloatInc +
          (stepMetrics pf line rest).badFloatInc,
        matchFound := ((processMetric pf m line c).matched ||
          (stepMetrics pf line rest).matchFound),
        diagCount := (if (processMetric pf m line c).diag then 1 else 0) +
          (stepMetrics pf line rest).diagCount,
        panicked := (stepMetrics pf line rest).panicked } := by
  simp only [stepMetrics, h, Bool.false_eq_true, if_false]

/-- The metric components of the spec list are never modified by the
line loop: only collectors change. -/
lemma stepMetrics_fst (pf : String → Option Val) (line : String)
    (specs : List (Metric × Collector)) :
    (stepMetrics pf line specs).specs.map Prod.fst = specs.map Prod.fst := by
  induction specs with
  | nil => rfl
  | cons p rest ih =>
    obtain ⟨m, c⟩ := p
    by_cases hp : (processMetric pf m line c).panicked = true
    · rw [stepMetrics_cons_panic pf line m c rest hp]
      simp
    · rw [stepMetrics_cons_ok pf line m c rest (by simpa using hp)]
      simp [ih]

/-- Under no panic, the matched-any flag of the loop is exactly whether
some metric pattern matches the line. -/
lemma stepMetrics_matchFound (pf : String → Option Val) (line : String)
    (specs : List (Metric × Collector))
    (h : (stepMetrics pf line specs).panicked = false) :
    (stepMetrics pf line specs).matchFound =
      lineMatches (specs.map Prod.fst) line := by
  induction specs with
  | nil => rfl
  | cons p rest ih =>
    obtain ⟨m, c⟩ := p
    by_cases hp : (processMetric pf m line c).panicked = true
    · rw [stepMetrics_cons_panic pf line m c rest hp] at h
      exact absurd h (by simp)
    · have hp' : (processMetric pf m line c).panicked = false := by simpa using hp
      rw [stepMetrics_cons_ok pf line m c rest hp'] at h ⊢
      simp only at h
      simp [lineMatches, processMetric_matched, ih h, List.any_cons]

/-- The panic flag of one scanner iteration comes from the metric loop. -/
lemma processLine_panicked (pf : String → Option Val) (cfg : Config)
    (line : String) (st : ProcState) :
    (processLine pf cfg line st).panicked =
      (stepMetrics pf line st.specs).panicked := by
  simp only [processLine]
  split
  · next h => simp [h]
  · split
    · next h _ => simp at h; simp [h]
    · split
      · next h _ _ => simp at h; simp [h]
      · next h _ _ => simp at h; simp [h]

/-- C1: the source increments matchedLines inside the per-metric loop,
once per matching specification, not once per line with at least one
match: the line "ab" matches both counter specifications and the
matched-lines counter ends at 2 after this single line (the claim, the
specification and the counter help string all say it should be 1),
while totalLines ends at 1. -/
theorem c1_matched_lines_counts_matching_specs :
    (processLine pfDemo cfgDemo "ab"
      (initialState [metricAbA, metricAbB])).state.counters.matchedLines = 2 ∧
    (processLine pfDemo cfgDemo "ab"
      (initialState [metricAbA, metricAbB])).state.counters.totalLines = 1 :=
  ⟨rfl, rfl⟩

/-- C2: a declared value group name absent from the pattern group names
is NOT handled: indexOf returns -1 and getValue indexes results[-1],
a runtime panic that kills the process. On the line "y" the
misconfigured specification panics, and the catch-all specification
after it is never tested (its counter stays 0), contradicting the
claimed skip-and-continue behaviour. -/
theorem c2_missing_value_group_panics :
    getValue pfDemo "resp" ["", "code"] ["y", "200"] =
      Except.error GoError.panic ∧
    (processMetric pfDemo metricValueGroupMissing "y"
      (Collector.gauge 0)).panicked = true ∧
    (stepMetrics pfDemo "y"
      [(metricValueGroupMissing, Collector.gauge 0),
       (metricAny, Collector.counter 0)]).panicked = true ∧
    (stepMetrics pfDemo "y"
      [(metricValueGroupMissing, Collector.gauge 0),
       (metricAny, Collector.counter 0)]).specs.map Prod.snd =
      [Collector.gauge 0, Collector.counter 0] :=
  ⟨rfl, rfl, rfl, rfl⟩

/-- C3: when a declared label name is missing from the pattern group
names, getLabels returns an error and the source logs the diagnostic,
but (unlike the value path) does not continue: the update is attempted
with the nil label map the failed getLabels returned, and With panics
on the label-cardinality mismatch. So the diagnostic is emitted and no
update lands on the collector, but the process crashes — refuting the
claim's "does not crash" — and the catch-all specification after the
failing one is never tested (its counter stays 0). -/
theorem c3_label_lookup_failure_logs_then_crashes :
    getLabels ["who"] ["", "other"] ["x", "yy"] =
      Except.error GoError.lookupError ∧
    processMetric pfDemo metricLabelGroupMissing "x" (Collector.counterVec []) =
      { collector := Collector.counterVec [], matchedInc := 1,
        badFloatInc := 0, matched := true, diag := true, panicked := true } ∧
    (stepMetrics pfDemo "x"
      [(metricLabelGroupMissing, Collector.counterVec []),
       (metricAny, Collector.counter 0)]).panicked = true ∧
    (stepMetrics pfDemo "x"
      [(metricLabelGroupMissing, Collector.counterVec []),
       (metricAny, Collector.counter 0)]).specs.map Prod.snd =
      [Collector.counterVec [], Collector.counter 0] :=
  ⟨rfl, rfl, rfl, rfl⟩

/-- C6: the startup classifier chooses the collector shape from the two
booleans exactly as claimed (value and labels give GaugeVec, value only
gives Gauge, labels only gives CounterVec, neither gives Counter), and
the per-line engine never changes the shape of a collector. -/
theorem c6_collector_shape_classification (m : Metric) :
    shapeOf (newCollector m) =
      (if m.value ≠ "" then
        (if m.labels.length > 0 then Shape.gaugeVec else Shape.gauge)
      else
        (if m.labels.length > 0 then Shape.counterVec else Shape.counter)) ∧
    ∀ (pf : String → Option Val) (line : String) (c : Collector),
      shapeOf (processMetric pf m line c).collector = shapeOf c := by
  constructor
  · by_cases hv : m.value ≠ "" <;> by_cases hl : m.labels.length > 0 <;>
      simp [newCollector, shapeOf, hv, hl]
  · intro pf line c
    exact shapeOf_processMetric pf m line c

/-- C7: main registers the user collectors and then only three of the
four self-observability counters: totalLines, bytesRead and
matchedLines are in the registry for every configuration, but the
value-extraction-failure counter badFloats is never registered, so it
is not exposed for scraping. -/
theorem c7_bad_floats_counter_not_registered (basename : String)
    (metrics : List Metric) :
    RegEntry.selfMetric totalLinesName ∈ startupRegistry basename metrics ∧
    RegEntry.selfMetric bytesReadName ∈ startupRegistry basename metrics ∧
    RegEntry.selfMetric matchedLinesName ∈ startupRegistry basename metrics ∧
    ((startupRegistry basename metrics).all
      fun e => e != RegEntry.selfMetric badFloatsName) = true := by
  refine ⟨?_, ?_, ?_, ?_⟩ <;> unfold startupRegistry
  · exact List.mem_append_right _ (by simp)
  · exact List.mem_append_right _ (by simp)
  · exact List.mem_append_right _ (by simp)
  · rw [List.all_append]
    have h1 : ((metrics.map fun m =>
        RegEntry.user (basename ++ "_" ++ m.name)).all
        fun e => e != RegEntry.selfMetric badFloatsName) = true := by
      rw [List.all_eq_true]
      intro x hx
      rcases List.mem_map.mp hx with ⟨m, _, rfl⟩
      rfl
    rw [h1]
    rfl

/-- C4: when a matching specification declares a value group and the
submatch fails to parse, the step leaves the collector unchanged,
increments badFloats by 1, keeps the matched flag set (matchedInc = 1
was already applied), emits no label diagnostic and does not panic; the
loop then continues with the next specification, the failed
specification keeping its prior collector. -/
theorem c4_parse_failure_skips_update (pf : String → Option Val)
    (m : Metric) (line : String) (c : Collector)
    (hmatch : m.find line ≠ [])
    (hv : m.value ≠ "")
    (herr : getValue pf m.value m.groupName (m.find line) =
      Except.error GoError.parseError) :
    processMetric pf m line c =
      { collector := c, matchedInc := 1, badFloatInc := 1, matched := true,
        diag := false, panicked := false } ∧
    ∀ rest : List (Metric × Collector),
      (stepMetrics pf line ((m, c) :: rest)).specs =
        (m, c) :: (stepMetrics pf line rest).specs := by
  have hlen : ¬((m.find line).length = 0) := fun h =>
    hmatch (List.length_eq_zero.mp h)
  have hpm : processMetric pf m line c =
      { collector := c, matchedInc := 1, badFloatInc := 1, matched := true,
        diag := false, panicked := false } := by
    unfold processMetric
    rw [if_neg hlen]
    unfold processMatched
    rw [if_pos hv, herr]
  refine ⟨hpm, fun rest => ?_⟩
  rw [stepMetrics_cons_ok pf line m c rest (by rw [hpm])]
  rw [hpm]

theorem c4_parse_failure_skips_update_witness :
    metricPost.find "POST /x 200 abcms" ≠ [] ∧
    metricPost.value ≠ "" ∧
    getValue pfDemo metricPost.value metricPost.groupName
      (metricPost.find "POST /x 200 abcms") =
      Except.error GoError.parseError ∧
    (processMetric pfDemo metricPost "POST /x 200 abcms"
        (Collector.gaugeVec [([("returncode", "200")], 15)]) =
      { collector := Collector.gaugeVec [([("returncode", "200")], 15)],
        matchedInc := 1, badFloatInc := 1, matched := true,
        diag := false, panicked := false } ∧
    ∀ rest : List (Metric × Collector),
      (stepMetrics pfDemo "POST /x 200 abcms"
        ((metricPost, Collector.gaugeVec [([("returncode", "200")], 15)]) ::
          rest)).specs =
        (metricPost, Collector.gaugeVec [([("returncode", "200")], 15)]) ::
          (stepMetrics pfDemo "POST /x 200 abcms" rest).specs) :=
  ⟨by decide, by decide, rfl,
    c4_parse_failure_skips_update pfDemo metricPost "POST /x 200 abcms"
      (Collector.gaugeVec [([("returncode", "200")], 15)])
      (by decide) (by decide) rfl⟩

/-- C5: absent a panic, the forwarding decision of one scanner
iteration is exactly the pure function of (eatAll, eatMatches, matched)
the specification describes, where matched depends only on the metric
patterns and the line; a forwarded line is emitted verbatim (the output
is the input line itself), and the metric list the decision reads is
never modified by line processing. -/
theorem c5_pass_through_pure (pf : String → Option Val) (cfg : Config)
    (line : String) (st : ProcState)
    (h : (processLine pf cfg line st).panicked = false) :
    (processLine pf cfg line st).output =
      (if forwardsDecision cfg.eatAll cfg.eatMatches
          (lineMatches (st.specs.map Prod.fst) line) = true
        then some line else none) ∧
    (processLine pf cfg line st).state.specs.map Prod.fst =
      st.specs.map Prod.fst := by
  rw [processLine_panicked] at h
  have hmf := stepMetrics_matchFound pf line st.specs h
  constructor
  · simp only [processLine, h, Bool.false_eq_true, if_false]
    rw [hmf]
    by_cases hA : cfg.eatAll = true
    · simp [hA, forwardsDecision]
    · by_cases hM : (lineMatches (st.specs.map Prod.fst) line &&
          cfg.eatMatches) = true
      · simp [hA, hM, forwardsDecision]
      · simp [hA, hM, forwardsDecision]
  · simp only [processLine]
    split
    · simp [stepMetrics_fst]
    · split
      · simp [stepMetrics_fst]
      · split
        · simp [stepMetrics_fst]
        · simp [stepMetrics_fst]

theorem c5_pass_through_pure_witness :
    (processLine pfDemo { eatMatches := true, eatAll := false } "ab"
      (initialState [metricAbA, metricPost])).panicked = false ∧
    ((processLine pfDemo { eatMatches := true, eatAll := false } "ab"
        (initialState [metricAbA, metricPost])).output =
      (if forwardsDecision false true
          (lineMatches ((initialState [metricAbA, metricPost]).specs.map
            Prod.fst) "ab") = true
        then some "ab" else none) ∧
    (processLine pfDemo { eatMatches := true, eatAll := false } "ab"
        (initialState [metricAbA, metricPost])).state.specs.map Prod.fst =
      (initialState [metricAbA, metricPost]).specs.map Prod.fst) :=
  ⟨rfl, c5_pass_through_pure pfDemo { eatMatches := true, eatAll := false }
    "ab" (initialState [metricAbA, metricPost]) rfl⟩

/-- C8: absent a panic, every specification in the list is tested
against the line and its final collector is the result of applying its
own one-metric step, independent of every other specification (so each
matching specification is updated exactly once and the evaluation order
between specifications cannot affect the final collector states), and
the matched-any flag is the disjunction over all specifications. -/
theorem c8_every_spec_tested_independently (pf : String → Option Val)
    (line : String) (specs : List (Metric × Collector))
    (h : (stepMetrics pf line specs).panicked = false) :
    (stepMetrics pf line specs).specs =
      specs.map (fun p => (p.1, (processMetric pf p.1 line p.2).collector)) ∧
    (stepMetrics pf line specs).matchFound =
      lineMatches (specs.map Prod.fst) line := by
  refine ⟨?_, stepMetrics_matchFound pf line specs h⟩
  induction specs with
  | nil => rfl
  | cons p rest ih =>
    obtain ⟨m, c⟩ := p
    by_cases hp : (processMetric pf m line c).panicked = true
    · rw [stepMetrics_cons_panic pf line m c rest hp] at h
      exact absurd h (by simp)
    · have hp' : (processMetric pf m line c).panicked = false := by
        simpa using hp
      rw [stepMetrics_cons_ok pf line m c rest hp'] at h ⊢
      simp only at h
      simp [ih h]

theorem c8_every_spec_tested_independently_witness :
    (stepMetrics pfDemo "ab"
      [(metricAbA, Collector.counter 3), (metricPost, Collector.gaugeVec []),
       (metricAbB, Collector.counter 0)]).panicked = false ∧
    ((stepMetrics pfDemo "ab"
      [(metricAbA, Collector.counter 3), (metricPost, Collector.gaugeVec []),
       (metricAbB, Collector.counter 0)]).specs =
      [(metricAbA, Collector.counter 3), (metricPost, Collector.gaugeVec []),
       (metricAbB, Collector.counter 0)].map
        (fun p => (p.1, (processMetric pfDemo p.1 "ab" p.2).collector)) ∧
    (stepMetrics pfDemo "ab"
      [(metricAbA, Collector.counter 3), (metricPost, Collector.gaugeVec []),
       (metricAbB, Collector.counter 0)]).matchFound =
      lineMatches ([(metricAbA, Collector.counter 3),
        (metricPost, Collector.gaugeVec []),
        (metricAbB, Collector.counter 0)].map Prod.fst) "ab") :=
  ⟨rfl, c8_every_spec_tested_independently pfDemo "ab"
    [(metricAbA, Collector.counter 3), (metricPost, Collector.gaugeVec []),
     (metricAbB, Collector.counter 0)] rfl⟩

/-- Total count held by a counter-shaped collector: the count of a
Counter, the sum over all series of a CounterVec. -/
def counterTotal : Collector → Nat
  | Collector.counter n => n
  | Collector.counterVec s => (s.map Prod.snd).sum
  | _ => 0

lemma sum_incSeries (lab : GoLabels) (s : List (GoLabels × Nat)) :
    ((incSeries lab s).map Prod.snd).sum = (s.map Prod.snd).sum + 1 := by
  induction s with
  | nil => rfl
  | cons p rest ih =>
    obtain ⟨l, n⟩ := p
    unfold incSeries
    by_cases hl : l = lab
    · rw [if_pos hl]
      simp only [List.map_cons, List.sum_cons]
      omega
    · rw [if_neg hl]
      simp only [List.map_cons, List.sum_cons, ih]
      omega

/-- indexOf either reports absence or returns an index below the list
length. -/
lemma indexOf_cases (w : String) (data : List String) :
    indexOf w data = -1 ∨
    (0 ≤ indexOf w data ∧ (indexOf w data).toNat < data.length) := by
  induction data with
  | nil => left; rfl
  | cons v rest ih =>
    unfold indexOf
    by_cases hw : w = v
    · right
      rw [if_pos hw]
      exact ⟨le_refl 0, by simp⟩
    · rw [if_neg hw]
      rcases ih with h | ⟨h0, hlt⟩
      · left; simp [h]
      · right
        have hne : indexOf w rest ≠ -1 := by omega
        rw [if_neg hne]
        constructor
        · omega
        · simp only [List.length_cons]
          omega

/-- With the regexp invariant (as many submatches as group names),
getLabels can fail only with a returned lookup error, never a panic. -/
lemma getLabels_not_panic (ln gn rs : List String)
    (hlen : rs.length = gn.length) :
    getLabels ln gn rs ≠ Except.error GoError.panic := by
  induction ln with
  | nil => intro h; exact Except.noConfusion h
  | cons n rest ih =>
    unfold getLabels
    by_cases hidx : indexOf n gn = -1
    · rw [if_pos hidx]
      intro h
      injection h with h2
      exact GoError.noConfusion h2
    · rw [if_neg hidx]
      rcases indexOf_cases n gn with h | ⟨h0, hlt⟩
      · exact absurd h hidx
      · have hb : (indexOf n gn).toNat < rs.length := by omega
        rw [dif_pos hb]
        intro h
        revert h
        split
        · intro h; exact Except.noConfusion h
        · next e heq => intro h; injection h with h2; subst h2; exact ih heq

lemma indexOf_ne_neg1_of_mem (w : String) (data : List String)
    (h : w ∈ data) : indexOf w data ≠ -1 := by
  induction data with
  | nil => exact absurd h (List.not_mem_nil w)
  | cons v rest ih =>
    unfold indexOf
    by_cases hw : w = v
    · rw [if_pos hw]
      omega
    · rw [if_neg hw]
      have hmem : w ∈ rest := by
        rcases List.mem_cons.mp h with h1 | h1
        · exact absurd h1 hw
        · exact h1
      have hne := ih hmem
      rcases indexOf_cases w rest with h2 | ⟨h2, _⟩
      · exact absurd h2 hne
      · rw [if_neg hne]
        omega

/-- A specification whose declared labels all appear among the group
names (the configuration invariant of the specification), tested
against a full submatch row, always extracts its labels. -/
lemma getLabels_ok (ln gn rs : List String)
    (hsub : ∀ n ∈ ln, n ∈ gn) (hlen : rs.length = gn.length) :
    ∃ lab, getLabels ln gn rs = Except.ok lab := by
  induction ln with
  | nil => exact ⟨[], rfl⟩
  | cons n rest ih =>
    have hne : indexOf n gn ≠ -1 :=
      indexOf_ne_neg1_of_mem n gn (hsub n (by simp))
    rcases indexOf_cases n gn with h | ⟨h0, hlt⟩
    · exact absurd h hne
    · obtain ⟨lab, hlab⟩ := ih fun x hx => hsub x (by simp [hx])
      have hbound : (indexOf n gn).toNat < rs.length := by omega
      refine ⟨(n, rs.get ⟨(indexOf n gn).toNat, hbound⟩) :: lab, ?_⟩
      unfold getLabels
      rw [if_neg hne, dif_pos hbound, hlab]

lemma shape_counter_inv (c : Collector) (h : shapeOf c = Shape.counter) :
    ∃ n, c = Collector.counter n := by
  cases c <;> simp [shapeOf] at h ⊢

lemma shape_counterVec_inv (c : Collector)
    (h : shapeOf c = Shape.counterVec) :
    ∃ s, c = Collector.counterVec s := by
  cases c <;> simp [shapeOf] at h ⊢

/-- One counter-shaped step of a well-configured specification (its
declared labels all appear among the group names): no panic, and the
total rises by exactly one on a match, zero otherwise. -/
lemma counter_step (pf : String → Option Val) (m : Metric) (line : String)
    (c : Collector) (hv : m.value = "")
    (hshape : shapeOf c = shapeOf (newCollector m))
    (hsub : ∀ n ∈ m.labels, n ∈ m.groupName)
    (hlen : m.find line = [] ∨ (m.find line).length = m.groupName.length) :
    (processMetric pf m line c).panicked = false ∧
    counterTotal (processMetric pf m line c).collector =
      counterTotal c + (if (m.find line).isEmpty then 0 else 1) := by
  have hv' : ¬(m.value ≠ "") := fun h => h hv
  cases hfind : m.find line with
  | nil =>
    unfold processMetric
    rw [hfind]
    simp
  | cons a t =>
    have hlen2 : (a :: t).length = m.groupName.length := by
      rcases hlen with h | h
      · rw [hfind] at h; exact absurd h (by simp)
      · rw [hfind] at h; exact h
    unfold processMetric
    rw [hfind, if_neg (by simp : ¬((a :: t).length = 0))]
    simp only [List.isEmpty_cons, Bool.false_eq_true, if_false]
    have hstep : ∀ lab d, (finishUpdate m c 0 lab d).panicked = false ∧
        counterTotal (finishUpdate m c 0 lab d).collector =
          counterTotal c + 1 := by
      intro lab d
      unfold finishUpdate applyUpdate
      rw [if_pos hv]
      by_cases hl : m.labels.length > 0
      · rw [if_pos hl]
        have hsh : shapeOf c = Shape.counterVec := by
          rw [hshape]
          unfold newCollector
          rw [if_neg hv', if_pos hl]
          rfl
        obtain ⟨s, rfl⟩ := shape_counterVec_inv c hsh
        exact ⟨rfl, by simp [counterTotal, sum_incSeries]⟩
      · rw [if_neg hl]
        have hsh : shapeOf c = Shape.counter := by
          rw [hshape]
          unfold newCollector
          rw [if_neg hv', if_neg hl]
          rfl
        obtain ⟨n, rfl⟩ := shape_counter_inv c hsh
        exact ⟨rfl, rfl⟩
    unfold processMatched
    rw [if_neg hv']
    unfold processLabeled
    by_cases hl : m.labels.length > 0
    · rw [if_pos hl]
      obtain ⟨lab0, hok⟩ :=
        getLabels_ok m.labels m.groupName (a :: t) hsub hlen2
      rw [hok]
      exact hstep lab0 false
    · rw [if_neg hl]
      exact hstep [] false

/-- C9: a counter-shaped specification (no value group) whose declared
labels all appear among its pattern group names (the configuration
invariant of the data model), with a collector of the startup shape, is
never set to an absolute value: a non-matching line leaves the total
unchanged, a matching line raises the total by exactly one (on a
CounterVec, in exactly one series), the step never panics, the shape is
preserved, and feeding the identical matching line twice raises the
total by exactly two. -/
theorem c9_counter_increment_only (pf : String → Option Val) (m : Metric)
    (line : String) (c : Collector)
    (hv : m.value = "")
    (hshape : shapeOf c = shapeOf (newCollector m))
    (hsub : ∀ n ∈ m.labels, n ∈ m.groupName)
    (hlen : m.find line = [] ∨ (m.find line).length = m.groupName.length) :
    (processMetric pf m line c).panicked = false ∧
    shapeOf (processMetric pf m line c).collector = shapeOf c ∧
    counterTotal (processMetric pf m line c).collector =
      counterTotal c + (if (m.find line).isEmpty then 0 else 1) ∧
    counterTotal
        (processMetric pf m line
          (processMetric pf m line c).collector).collector =
      counterTotal c + (if (m.find line).isEmpty then 0 else 2) := by
  obtain ⟨h1, h2⟩ := counter_step pf m line c hv hshape hsub hlen
  have hsh2 : shapeOf (processMetric pf m line c).collector = shapeOf c :=
    shapeOf_processMetric pf m line c
  obtain ⟨h3, h4⟩ := counter_step pf m line
    (processMetric pf m line c).collector hv (by rw [hsh2, hshape]) hsub hlen
  refine ⟨h1, hsh2, h2, ?_⟩
  rw [h4, h2]
  cases hE : (m.find line).isEmpty <;> simp [hE]

theorem c9_counter_increment_only_witness :
    metricCodeCount.value = "" ∧
    shapeOf (Collector.counterVec []) =
      shapeOf (newCollector metricCodeCount) ∧
    (∀ n ∈ metricCodeCount.labels, n ∈ metricCodeCount.groupName) ∧
    (metricCodeCount.find "y" = [] ∨
      (metricCodeCount.find "y").length = metricCodeCount.groupName.length) ∧
    ((processMetric pfDemo metricCodeCount "y"
        (Collector.counterVec [])).panicked = false ∧
    shapeOf (processMetric pfDemo metricCodeCount "y"
        (Collector.counterVec [])).collector =
      shapeOf (Collector.counterVec []) ∧
    counterTotal (processMetric pfDemo metricCodeCount "y"
        (Collector.counterVec [])).collector =
      counterTotal (Collector.counterVec []) +
        (if (metricCodeCount.find "y").isEmpty then 0 else 1) ∧
    counterTotal (processMetric pfDemo metricCodeCount "y"
        (processMetric pfDemo metricCodeCount "y"
          (Collector.counterVec [])).collector).collector =
      counterTotal (Collector.counterVec []) +
        (if (metricCodeCount.find "y").isEmpty then 0 else 2)) :=
  ⟨rfl, rfl, by decide, by decide,
    c9_counter_increment_only pfDemo metricCodeCount "y"
      (Collector.counterVec []) rfl rfl (by decide) (by decide)⟩

/-- Each scanner iteration adds 1 to totalLines and the byte length of
the delivered text to bytesRead, whatever else happens on the line. -/
lemma processLine_counts (pf : String → Option Val) (cfg : Config)
    (line : String) (st : ProcState) :
    (processLine pf cfg line st).state.counters.totalLines =
      st.counters.totalLines + 1 ∧
    (processLine pf cfg line st).state.counters.bytesRead =
      st.counters.bytesRead + line.utf8ByteSize := by
  simp only [processLine]
  split
  · exact ⟨rfl, rfl⟩
  · split
    · exact ⟨rfl, rfl⟩
    · split
      · exact ⟨rfl, rfl⟩
      · exact ⟨rfl, rfl⟩

lemma runLines_counts (pf : String → Option Val) (cfg : Config)
    (lines : List String) (st : ProcState)
    (h : (runLines pf cfg lines st).panicked = false) :
    (runLines pf cfg lines st).state.counters.totalLines =
      st.counters.totalLines + lines.length ∧
    (runLines pf cfg lines st).state.counters.bytesRead =
      st.counters.bytesRead + (lines.map String.utf8ByteSize).sum := by
  induction lines generalizing st with
  | nil => simp [runLines]
  | cons l rest ih =>
    simp only [runLines] at h ⊢
    by_cases hp : (processLine pf cfg l st).panicked = true
    · rw [if_pos hp] at h
      exact absurd h (by simp)
    · rw [if_neg hp] at h ⊢
      simp only at h
      obtain ⟨ih1, ih2⟩ := ih ((processLine pf cfg l st).state) h
      obtain ⟨hc1, hc2⟩ := processLine_counts pf cfg l st
      constructor
      · simp only [ih1, hc1, List.length_cons]
        omega
      · simp only [ih2, hc2, List.map_cons, List.sum_cons]
        omega

/-- C10 (amended): processing a raw input stream adds one to totalLines
per delivered line, and adds to bytesRead the byte length of each line
as delivered by the scanner, i.e. with its newline terminator and any
immediately preceding carriage return excluded (scanTokens), so the
counter undercounts the raw stream by the full terminator length of
each terminated line. -/
theorem c10_bytes_read_excludes_line_terminator (pf : String → Option Val)
    (cfg : Config) (raw : String) (st : ProcState)
    (h : (runScanner pf cfg raw st).panicked = false) :
    (runScanner pf cfg raw st).state.counters.totalLines =
      st.counters.totalLines + (scanTokens raw).length ∧
    (runScanner pf cfg raw st).state.counters.bytesRead =
      st.counters.bytesRead + ((scanTokens raw).map String.utf8ByteSize).sum := by
  unfold runScanner at h ⊢
  exact runLines_counts pf cfg (scanTokens raw) st h

theorem c10_bytes_read_excludes_line_terminator_witness :
    (runScanner pfDemo cfgDemo "ab\ncd\r\n"
      (initialState [metricAbA])).panicked = false ∧
    ((runScanner pfDemo cfgDemo "ab\ncd\r\n"
        (initialState [metricAbA])).state.counters.totalLines =
      (initialState [metricAbA]).counters.totalLines +
        (scanTokens "ab\ncd\r\n").length ∧
    (runScanner pfDemo cfgDemo "ab\ncd\r\n"
        (initialState [metricAbA])).state.counters.bytesRead =
      (initialState [metricAbA]).counters.bytesRead +
        ((scanTokens "ab\ncd\r\n").map String.utf8ByteSize).sum) :=
  ⟨rfl, c10_bytes_read_excludes_line_terminator pfDemo cfgDemo "ab\ncd\r\n"
    (initialState [metricAbA]) rfl⟩

/-- C10 counterexample: feeding the raw input "a\r\n" (one CRLF
terminated line) gives one delivered line and a bytes-read count of 1,
while the raw input is 3 bytes: the undercount is two bytes, not the
one terminator byte per line the claim states, because the scanner
strips the carriage return as well as the newline. -/
theorem c10_crlf_bytes_counterexample :
    (runScanner pfDemo cfgDemo "a\r\n"
      (initialState [])).state.counters.totalLines = 1 ∧
    (runScanner pfDemo cfgDemo "a\r\n"
      (initialState [])).state.counters.bytesRead = 1 ∧
    String.utf8ByteSize "a\r\n" = 3 ∧
    (runScanner pfDemo cfgDemo "a\r\n"
      (initialState [])).state.counters.bytesRead + 1 ≠
      String.utf8ByteSize "a\r\n" :=
  ⟨rfl, rfl, rfl, by decide⟩

end Stdout2Prom
